import Mathlib

/-!
Shallow embedding of `tools/create_pkg_manifest.py`.

The script evaluates a DEPS declaration file, filters the resulting `deps`
mapping down to the keys containing `sdk/third_party/pkg` while rewriting the
first `sdk` segment to `dart`, and writes a fixed-shape XML manifest.

Modelling conventions:
- Python dictionaries are association lists `List (String × String)`; a real
  dictionary has pairwise-distinct keys, which appears as a `Nodup` hypothesis
  where a theorem needs it.  `dictInsert` models `d[k] = v` (replace the
  binding if the key is present, append otherwise) and `dictFind` models
  `k in d` / `d[k]`.
- The `exec` of the declaration file content is abstracted by its result: a
  `LocalScope` recording whether (and how) the file bound `vars` and `deps`.
- File writes are modelled by accumulating the written bytes in a `String`;
  a function that can raise returns the content written so far together with
  `Option String` (`some msg` = uncaught exception, nonzero process exit).
-/

namespace CreatePkgManifest

/-- Python `d[k] = v` on an association list: replace the existing binding of
`k` if present, otherwise append the new binding at the end. -/
def dictInsert : List (String × String) → String → String → List (String × String)
  | [], k, v => [(k, v)]
  | (k', v') :: rest, k, v =>
    if k' = k then (k, v) :: rest else (k', v') :: dictInsert rest k v

/-- Python `d[k]` / `k in d` on an association list: first binding of `k`. -/
def dictFind : List (String × String) → String → Option String
  | [], _ => none
  | (k', v') :: rest, k => if k' = k then some v' else dictFind rest k

/-- Python `sub in s` on character lists (`''` is a substring of anything). -/
def containsSubChars (pat : List Char) : List Char → Bool
  | [] => pat.isEmpty
  | c :: rest => pat.isPrefixOf (c :: rest) || containsSubChars pat rest

/-- Python `s.replace(old, new, 1)` on character lists: rewrite the first
occurrence of `old`, leave the string unchanged when `old` does not occur. -/
def replaceFirstChars (old new : List Char) : List Char → List Char
  | [] => []
  | c :: rest =>
    if old.isPrefixOf (c :: rest) then new ++ (c :: rest).drop old.length
    else c :: replaceFirstChars old new rest

/-- Python `s.split(sep)` (with an explicit one-character separator) on
character lists; always returns at least one piece, empty pieces kept. -/
def pySplitChars (sep : Char) : List Char → List (List Char)
  | [] => [[]]
  | c :: rest =>
    if c = sep then [] :: pySplitChars sep rest
    else
      match pySplitChars sep rest with
      | [] => [[c]]
      | h :: t => (c :: h) :: t

/-- Python `sub in s` on strings. -/
def strContains (pat s : String) : Bool :=
  containsSubChars pat.data s.data

/-- Python `s.replace(old, new, 1)` on strings. -/
def strReplaceFirst (s old new : String) : String :=
  String.mk (replaceFirstChars old.data new.data s.data)

/-- Python `s.split(sep)` on strings. -/
def pySplit (sep : Char) (s : String) : List String :=
  (pySplitChars sep s.data).map String.mk

/-- The bindings left in `local_scope` after `exec`ing the declaration file:
the file may or may not have bound `vars` and `deps` (each a dictionary). -/
structure LocalScope where
  vars : Option (List (String × String))
  deps : Option (List (String × String))

/-- The `VarImpl` object of the script, holding the evaluation scope. -/
structure VarImpl where
  local_scope : LocalScope

/-- `VarImpl.Lookup`: implements the `Var` syntax.  Looks the name up in
`local_scope.get("vars", {})`; raises `Var is not defined: <name>` when the
name is absent (also when no `vars` binding exists at all). -/
def VarImpl.Lookup (self : VarImpl) (var_name : String) : Except String String :=
  match dictFind (self.local_scope.vars.getD []) var_name with
  | some v => Except.ok v
  | none => Except.error ("Var is not defined: " ++ var_name)

/-- The marker substring selecting the dependencies this tool keeps. -/
def pkgMarker : String := "sdk/third_party/pkg"

/-- The loop condition of `ParseDepsFile`: `'sdk/third_party/pkg' in k`. -/
def hasPkgMarker (k : String) : Bool := strContains pkgMarker k

/-- The `new_key` computed by `ParseDepsFile`: `k.replace('sdk', 'dart', 1)`. -/
def newKey (k : String) : String := strReplaceFirst k "sdk" "dart"

/-- One iteration of the `ParseDepsFile` loop: if the key contains
`sdk/third_party/pkg`, store the value under `new_key` in `filtered_deps`. -/
def filterStep (filtered_deps : List (String × String)) (kv : String × String) :
    List (String × String) :=
  if hasPkgMarker kv.1 then dictInsert filtered_deps (newKey kv.1) kv.2 else filtered_deps

/-- The filter/rewrite loop of `ParseDepsFile`, run after the declaration
content has been evaluated into `local_scope`: iterate over
`local_scope.get('deps', {})`, keep the entries whose key contains
`sdk/third_party/pkg`, and store each kept value under the key with the
first `sdk` replaced by `dart`. -/
def ParseDepsFile (local_scope : LocalScope) : List (String × String) :=
  (local_scope.deps.getD []).foldl filterStep []

/-- The multi-line `project_template` of `WriteManifest`, with the `%s`
slots filled in (note the leading newline and the 13-space continuation
indent, exactly as in the triple-quoted source literal). -/
def project_template (path remote_url remote_version : String) : String :=
  "\n    <project name=\"" ++ path ++ "\"\n             path=\"" ++ path ++
    "\"\n             remote=\"" ++ remote_url ++ "\"\n             revision=\"" ++
    remote_version ++ "\"/>\n"

/-- The generated-file warning comment written first. -/
def warning : String :=
  "<!-- This file is generated by //dart/tools/create_pkg_manifest.py. DO NOT EDIT -->\n"

/-- Everything `WriteManifest` writes before the project loop runs. -/
def manifestHead : String :=
  warning ++ "<?xml version=\"1.0\" encoding=\"UTF-8\"?>\n" ++ "<manifest>\n" ++
    "  <projects>\n"

/-- Everything `WriteManifest` writes after the project loop finishes. -/
def manifestTail : String := "  </projects>\n" ++ "</manifest>\n"

/-- `sorted(deps.iteritems())`: the entries sorted by the lexicographic order
on (key, value) pairs. -/
def pairLe (a b : String × String) : Prop :=
  a.1 < b.1 ∨ (a.1 = b.1 ∧ a.2 ≤ b.2)

instance : DecidableRel pairLe := fun a b => by
  unfold pairLe; infer_instance

/-- `sorted(deps.iteritems())` as a function on association lists. -/
def sortPairs (l : List (String × String)) : List (String × String) :=
  l.insertionSort pairLe

/-- `remote_components[0]`: the part of the value before the first `'@'`. -/
def remoteUrl (remote : String) : String := (pySplit '@' remote).headD ""

/-- `remote_components[1]`: the second piece of `remote.split('@')` (defined
only when at least one `'@'` is present; out of range otherwise). -/
def remoteVersion (remote : String) : String := ((pySplit '@' remote).drop 1).headD ""

/-- The body of `WriteManifest`'s `for` loop: for each `(path, remote)` entry
split the value on `'@'`; index `[0]` is the URL and index `[1]` the revision.
When the split has fewer than two components, indexing `[1]` raises an
`IndexError` and the file keeps only what was written so far.  Returns the
written content and the error, if any. -/
def writeProjectsLoop : List (String × String) → String → String × Option String
  | [], written => (written ++ manifestTail, none)
  | (path, remote) :: rest, written =>
    match pySplit '@' remote with
    | remote_url :: remote_version :: _ =>
      writeProjectsLoop rest (written ++ project_template path remote_url remote_version)
    | _ => (written, some "IndexError: list index out of range")

/-- The concatenation of the filled-in project templates for a list of
entries, in list order: the text the loop appends on a successful run. -/
def projectsBlocks : List (String × String) → String
  | [] => ""
  | kv :: rest => project_template kv.1 (remoteUrl kv.2) (remoteVersion kv.2) ++ projectsBlocks rest

/-- `WriteManifest`: opens the output file with mode `w` (creating it or
truncating any previous content), writes the warning comment, the XML
declaration and the opening tags, then the sorted project entries, then the
closing tags.  The result is the final content of the output file together
with the uncaught exception, if one was raised mid-loop. -/
def WriteManifest (deps : List (String × String)) : String × Option String :=
  writeProjectsLoop (sortPairs deps) manifestHead

/-- `Main` after argument parsing and `exec`: filter the evaluated scope and
write the manifest.  Returns the final content of the output file and either
`Except.ok 0` (the script's return value, the process exit code) or the
uncaught exception, which makes the interpreter exit nonzero. -/
def Main (local_scope : LocalScope) : String × Except String Nat :=
  match WriteManifest (ParseDepsFile local_scope) with
  | (content, none) => (content, Except.ok 0)
  | (content, some e) => (content, Except.error e)

/-- Modelled from the spec (section 6, "Exact shape"): the output shape the
specification displays, with each `<project>` element on a single line
indented by four spaces and no blank lines.  Present only to compare the
writer's actual output against the shape the specification claims. -/
def specDisplayedShape (entries : List (String × String × String)) : String :=
  warning ++ "<?xml version=\"1.0\" encoding=\"UTF-8\"?>\n" ++ "<manifest>\n" ++
    "  <projects>\n" ++
    String.join (entries.map fun e =>
      "    <project name=\"" ++ e.1 ++ "\" path=\"" ++ e.1 ++ "\" remote=\"" ++
        e.2.1 ++ "\" revision=\"" ++ e.2.2 ++ "\"/>\n") ++
    "  </projects>\n" ++ "</manifest>\n"

/-! ### Association-list (Python dict) lemmas -/

theorem mem_dictInsert {l : List (String × String)} {k v : String} {p : String × String}
    (h : p ∈ dictInsert l k v) : p = (k, v) ∨ p ∈ l := by
  induction l with
  | nil => simpa [dictInsert] using h
  | cons hd tl ih =>
    obtain ⟨k', v'⟩ := hd
    rw [dictInsert] at h
    by_cases hk : k' = k
    · rw [if_pos hk] at h
      rcases List.mem_cons.mp h with h | h
      · exact Or.inl h
      · exact Or.inr (List.mem_cons_of_mem _ h)
    · rw [if_neg hk] at h
      rcases List.mem_cons.mp h with h | h
      · exact Or.inr (List.mem_cons.mpr (Or.inl h))
      · rcases ih h with h1 | h1
        · exact Or.inl h1
        · exact Or.inr (List.mem_cons_of_mem _ h1)

theorem self_mem_dictInsert (l : List (String × String)) (k v : String) :
    (k, v) ∈ dictInsert l k v := by
  induction l with
  | nil => simp [dictInsert]
  | cons hd tl ih =>
    obtain ⟨k', v'⟩ := hd
    rw [dictInsert]
    by_cases hk : k' = k
    · rw [if_pos hk]; exact List.mem_cons_self _ _
    · rw [if_neg hk]; exact List.mem_cons_of_mem _ ih

theorem mem_dictInsert_of_ne {l : List (String × String)} {k v : String}
    {p : String × String} (hp : p ∈ l) (hne : p.1 ≠ k) : p ∈ dictInsert l k v := by
  induction l with
  | nil => cases hp
  | cons hd tl ih =>
    obtain ⟨k', v'⟩ := hd
    rw [dictInsert]
    by_cases hk : k' = k
    · rw [if_pos hk]
      rcases List.mem_cons.mp hp with h | h
      · exact absurd (by rw [h]; exact hk) hne
      · exact List.mem_cons_of_mem _ h
    · rw [if_neg hk]
      rcases List.mem_cons.mp hp with h | h
      · exact h ▸ List.mem_cons_self _ _
      · exact List.mem_cons_of_mem _ (ih h)

theorem exists_key_dictInsert {l : List (String × String)} {k' : String} (k v : String)
    (h : ∃ v', (k', v') ∈ l) : ∃ v', (k', v') ∈ dictInsert l k v := by
  by_cases hk : k' = k
  · subst hk
    exact ⟨v, self_mem_dictInsert l k' v⟩
  · obtain ⟨v', hv⟩ := h
    exact ⟨v', mem_dictInsert_of_ne hv hk⟩

theorem keys_mem_dictInsert {l : List (String × String)} {k v : String} {a : String}
    (h : a ∈ (dictInsert l k v).map Prod.fst) : a ∈ l.map Prod.fst ∨ a = k := by
  obtain ⟨p, hp, rfl⟩ := List.mem_map.mp h
  rcases mem_dictInsert hp with h1 | h1
  · exact Or.inr (by rw [h1])
  · exact Or.inl (List.mem_map_of_mem _ h1)

theorem nodup_keys_dictInsert {l : List (String × String)} (k v : String)
    (h : (l.map Prod.fst).Nodup) : ((dictInsert l k v).map Prod.fst).Nodup := by
  induction l with
  | nil => simp [dictInsert]
  | cons hd tl ih =>
    obtain ⟨k', v'⟩ := hd
    rw [List.map_cons] at h
    rw [dictInsert]
    by_cases hk : k' = k
    · rw [if_pos hk, List.map_cons]
      rw [← hk]
      exact h
    · rw [if_neg hk, List.map_cons]
      rw [List.nodup_cons] at h ⊢
      refine ⟨fun hmem => ?_, ih h.2⟩
      rcases keys_mem_dictInsert hmem with h1 | h1
      · exact h.1 h1
      · exact hk h1

theorem dictFind_eq_some {l : List (String × String)} {k v : String}
    (hnd : (l.map Prod.fst).Nodup) (h : (k, v) ∈ l) : dictFind l k = some v := by
  induction l with
  | nil => cases h
  | cons hd tl ih =>
    obtain ⟨k', v'⟩ := hd
    rw [List.map_cons, List.nodup_cons] at hnd
    rw [dictFind]
    rcases List.mem_cons.mp h with h1 | h1
    · injection h1 with hk hv
      subst hk; subst hv
      rw [if_pos rfl]
    · by_cases hk : k' = k
      · exfalso
        apply hnd.1
        rw [hk]
        exact List.mem_map.mpr ⟨(k, v), h1, rfl⟩
      · rw [if_neg hk]
        exact ih hnd.2 h1

theorem dictFind_eq_none {l : List (String × String)} {k : String}
    (h : ∀ v, (k, v) ∉ l) : dictFind l k = none := by
  induction l with
  | nil => rfl
  | cons hd tl ih =>
    obtain ⟨k', v'⟩ := hd
    rw [dictFind]
    by_cases hk : k' = k
    · subst hk
      exact absurd (List.mem_cons_self _ _) (h v')
    · rw [if_neg hk]
      exact ih (fun v hv => h v (List.mem_cons_of_mem _ hv))

/-! ### Lemmas about the filter/rewrite loop -/

theorem mem_foldl_filterStep {l : List (String × String)} :
    ∀ {acc : List (String × String)} {p : String × String},
      p ∈ l.foldl filterStep acc →
      p ∈ acc ∨ ∃ kv, kv ∈ l ∧ hasPkgMarker kv.1 = true ∧ newKey kv.1 = p.1 ∧ kv.2 = p.2 := by
  induction l with
  | nil =>
    intro acc p h
    exact Or.inl h
  | cons hd tl ih =>
    intro acc p h
    rw [List.foldl_cons] at h
    rcases ih h with h1 | ⟨kv, hkv, hm, hk, hv⟩
    · rw [filterStep] at h1
      by_cases hm : hasPkgMarker hd.1 = true
      · rw [if_pos hm] at h1
        rcases mem_dictInsert h1 with h2 | h2
        · exact Or.inr ⟨hd, List.mem_cons_self _ _, hm, by rw [h2], by rw [h2]⟩
        · exact Or.inl h2
      · rw [if_neg hm] at h1
        exact Or.inl h1
    · exact Or.inr ⟨kv, List.mem_cons_of_mem _ hkv, hm, hk, hv⟩

theorem exists_key_foldl_filterStep {l : List (String × String)} :
    ∀ {acc : List (String × String)} {k' : String},
      (∃ v', (k', v') ∈ acc) → ∃ v', (k', v') ∈ l.foldl filterStep acc := by
  induction l with
  | nil =>
    intro acc k' h
    exact h
  | cons hd tl ih =>
    intro acc k' h
    rw [List.foldl_cons]
    apply ih
    rw [filterStep]
    by_cases hm : hasPkgMarker hd.1 = true
    · rw [if_pos hm]
      exact exists_key_dictInsert _ _ h
    · rw [if_neg hm]
      exact h

theorem key_mem_foldl_filterStep {kv : String × String} (hm : hasPkgMarker kv.1 = true) :
    ∀ {l acc : List (String × String)}, kv ∈ l →
      ∃ v', (newKey kv.1, v') ∈ l.foldl filterStep acc := by
  intro l
  induction l with
  | nil =>
    intro acc h
    cases h
  | cons hd tl ih =>
    intro acc hkv
    rw [List.foldl_cons]
    rcases List.mem_cons.mp hkv with h | h
    · subst h
      apply exists_key_foldl_filterStep
      rw [filterStep, if_pos hm]
      exact ⟨kv.2, self_mem_dictInsert _ _ _⟩
    · exact ih h

theorem mem_foldl_filterStep_of_avoid {k0 v0 : String} :
    ∀ {l acc : List (String × String)}, (k0, v0) ∈ acc →
      (∀ kv ∈ l, hasPkgMarker kv.1 = true → newKey kv.1 ≠ k0) →
      (k0, v0) ∈ l.foldl filterStep acc := by
  intro l
  induction l with
  | nil =>
    intro acc h _
    exact h
  | cons hd tl ih =>
    intro acc h havoid
    rw [List.foldl_cons]
    refine ih ?_ (fun kv hkv hmkv => havoid kv (List.mem_cons_of_mem _ hkv) hmkv)
    rw [filterStep]
    by_cases hm : hasPkgMarker hd.1 = true
    · rw [if_pos hm]
      exact mem_dictInsert_of_ne h (Ne.symm (havoid hd (List.mem_cons_self _ _) hm))
    · rw [if_neg hm]
      exact h

theorem mem_foldl_filterStep_of_nodup {kv : String × String} (hm : hasPkgMarker kv.1 = true) :
    ∀ {l acc : List (String × String)}, kv ∈ l →
      ((l.filter (fun q => hasPkgMarker q.1)).map (fun q => newKey q.1)).Nodup →
      (newKey kv.1, kv.2) ∈ l.foldl filterStep acc := by
  intro l
  induction l with
  | nil =>
    intro acc h _
    cases h
  | cons hd tl ih =>
    intro acc hkv hnd
    rw [List.foldl_cons]
    rcases List.mem_cons.mp hkv with h | h
    · subst h
      rw [List.filter_cons, if_pos hm, List.map_cons, List.nodup_cons] at hnd
      refine mem_foldl_filterStep_of_avoid ?_ ?_
      · rw [filterStep, if_pos hm]
        exact self_mem_dictInsert _ _ _
      · intro q hq hmq hcontra
        apply hnd.1
        rw [← hcontra]
        exact List.mem_map.mpr ⟨q, List.mem_filter.mpr ⟨hq, hmq⟩, rfl⟩
    · refine ih h ?_
      rw [List.filter_cons] at hnd
      by_cases hmhd : hasPkgMarker hd.1 = true
      · rw [if_pos hmhd, List.map_cons, List.nodup_cons] at hnd
        exact hnd.2
      · rw [if_neg hmhd] at hnd
        exact hnd

theorem nodup_keys_foldl_filterStep :
    ∀ {l acc : List (String × String)}, (acc.map Prod.fst).Nodup →
      ((l.foldl filterStep acc).map Prod.fst).Nodup := by
  intro l
  induction l with
  | nil =>
    intro acc h
    exact h
  | cons hd tl ih =>
    intro acc h
    rw [List.foldl_cons]
    apply ih
    rw [filterStep]
    by_cases hm : hasPkgMarker hd.1 = true
    · rw [if_pos hm]
      exact nodup_keys_dictInsert _ _ h
    · rw [if_neg hm]
      exact h

theorem foldl_filterStep_of_no_match :
    ∀ {l acc : List (String × String)}, (∀ kv ∈ l, hasPkgMarker kv.1 = false) →
      l.foldl filterStep acc = acc := by
  intro l
  induction l with
  | nil =>
    intro acc _
    rfl
  | cons hd tl ih =>
    intro acc h
    have hm : hasPkgMarker hd.1 = false := h hd (List.mem_cons_self _ _)
    rw [List.foldl_cons, filterStep, hm, if_neg Bool.false_ne_true]
    exact ih (fun kv hkv => h kv (List.mem_cons_of_mem _ hkv))

theorem mem_filterFold_iff {l : List (String × String)}
    (hnd : ((l.filter (fun q => hasPkgMarker q.1)).map (fun q => newKey q.1)).Nodup)
    {p : String × String} :
    p ∈ l.foldl filterStep [] ↔
      ∃ kv, kv ∈ l ∧ hasPkgMarker kv.1 = true ∧ newKey kv.1 = p.1 ∧ kv.2 = p.2 := by
  constructor
  · intro h
    rcases mem_foldl_filterStep h with h1 | h1
    · cases h1
    · exact h1
  · rintro ⟨kv, hkv, hm, hk, hv⟩
    have hp : (newKey kv.1, kv.2) = p := by
      rw [hk, hv]
    rw [← hp]
    exact mem_foldl_filterStep_of_nodup hm hkv hnd

/-! ### The sort used by the writer -/

instance : IsTotal (String × String) pairLe :=
  ⟨fun a b => by
    rcases lt_trichotomy a.1 b.1 with h | h | h
    · exact Or.inl (Or.inl h)
    · rcases le_total a.2 b.2 with h2 | h2
      · exact Or.inl (Or.inr ⟨h, h2⟩)
      · exact Or.inr (Or.inr ⟨h.symm, h2⟩)
    · exact Or.inr (Or.inl h)⟩

instance : IsTrans (String × String) pairLe :=
  ⟨fun a b c hab hbc => by
    rcases hab with h1 | ⟨h1, h1'⟩
    · rcases hbc with h2 | ⟨h2, h2'⟩
      · exact Or.inl (h1.trans h2)
      · exact Or.inl (lt_of_lt_of_eq h1 h2)
    · rcases hbc with h2 | ⟨h2, h2'⟩
      · exact Or.inl (lt_of_eq_of_lt h1 h2)
      · exact Or.inr ⟨h1.trans h2, h1'.trans h2'⟩⟩

instance : IsAntisymm (String × String) pairLe :=
  ⟨fun a b hab hba => by
    rcases hab with h1 | ⟨h1, h1'⟩
    · rcases hba with h2 | ⟨h2, h2'⟩
      · exact absurd (h1.trans h2) (lt_irrefl _)
      · exact absurd (lt_of_lt_of_eq h1 h2) (lt_irrefl _)
    · rcases hba with h2 | ⟨h2, h2'⟩
      · exact absurd (lt_of_lt_of_eq h2 h1) (lt_irrefl _)
      · exact Prod.ext h1 (le_antisymm h1' h2')⟩

theorem pairLe_fst_le {a b : String × String} (h : pairLe a b) : a.1 ≤ b.1 := by
  rcases h with h | ⟨h, _⟩
  · exact le_of_lt h
  · exact le_of_eq h

theorem sortPairs_sorted (l : List (String × String)) : List.Sorted pairLe (sortPairs l) :=
  List.sorted_insertionSort pairLe l

theorem sortPairs_perm (l : List (String × String)) : (sortPairs l).Perm l :=
  List.perm_insertionSort pairLe l

theorem sortPairs_eq_of_perm {l1 l2 : List (String × String)} (h : l1.Perm l2) :
    sortPairs l1 = sortPairs l2 :=
  List.eq_of_perm_of_sorted ((sortPairs_perm l1).trans (h.trans (sortPairs_perm l2).symm))
    (sortPairs_sorted l1) (sortPairs_sorted l2)

/-! ### Lemmas about the split on `@` and the writer loop -/

theorem pySplitChars_ne_nil (sep : Char) (l : List Char) : pySplitChars sep l ≠ [] := by
  cases l with
  | nil => simp [pySplitChars]
  | cons c rest =>
    rw [pySplitChars]
    by_cases h : c = sep
    · rw [if_pos h]
      exact List.cons_ne_nil _ _
    · rw [if_neg h]
      cases hsp : pySplitChars sep rest with
      | nil => exact List.cons_ne_nil _ _
      | cons hd tl => exact List.cons_ne_nil _ _

theorem pySplitChars_append (sep : Char) (u w : List Char) (hu : sep ∉ u) :
    pySplitChars sep (u ++ sep :: w) = u :: pySplitChars sep w := by
  induction u with
  | nil =>
    rw [List.nil_append, pySplitChars, if_pos rfl]
  | cons c u' ih =>
    have hc : ¬ c = sep := fun hh => hu (hh ▸ List.mem_cons_self _ _)
    rw [List.cons_append, pySplitChars, if_neg hc,
      ih (fun hh => hu (List.mem_cons_of_mem _ hh))]

theorem pySplitChars_head (sep : Char) (w : List Char) :
    ∃ t, pySplitChars sep w = (w.takeWhile (fun c => c != sep)) :: t := by
  induction w with
  | nil => exact ⟨[], by simp [pySplitChars]⟩
  | cons c rest ih =>
    by_cases h : c = sep
    · refine ⟨pySplitChars sep rest, ?_⟩
      rw [pySplitChars, if_pos h, List.takeWhile_cons]
      simp [h]
    · obtain ⟨t, ht⟩ := ih
      refine ⟨t, ?_⟩
      rw [pySplitChars, if_neg h, ht, List.takeWhile_cons]
      simp [h]

theorem writeProjectsLoop_success :
    ∀ (l : List (String × String)), (∀ kv ∈ l, 2 ≤ (pySplit '@' kv.2).length) →
      ∀ (written : String),
        writeProjectsLoop l written = (written ++ (projectsBlocks l ++ manifestTail), none) := by
  intro l
  induction l with
  | nil =>
    intro _ written
    rw [writeProjectsLoop, projectsBlocks, String.empty_append]
  | cons kv rest ih =>
    intro h written
    obtain ⟨path, remote⟩ := kv
    have hlen := h (path, remote) (List.mem_cons_self _ _)
    rw [writeProjectsLoop]
    cases hsp : pySplit '@' remote with
    | nil =>
      rw [hsp] at hlen
      simp at hlen
    | cons u tl =>
      cases tl with
      | nil =>
        rw [hsp] at hlen
        simp at hlen
      | cons ver t =>
        show writeProjectsLoop rest (written ++ project_template path u ver) =
          (written ++ (projectsBlocks ((path, remote) :: rest) ++ manifestTail), none)
        have hu : remoteUrl remote = u := by
          rw [remoteUrl, hsp]
          rfl
        have hv : remoteVersion remote = ver := by
          rw [remoteVersion, hsp]
          rfl
        rw [ih (fun q hq => h q (List.mem_cons_of_mem _ hq)) (written ++ project_template path u ver)]
        rw [projectsBlocks, hu, hv]
        simp only [String.append_assoc]

/-! ### Claim theorems -/

/-- C1: every entry of the filtered map is derived (by the first-`sdk`-to-`dart`
rewrite, with its value) from a `deps` entry whose key contains the literal
substring `sdk/third_party/pkg`, and conversely every `deps` entry whose key
contains that substring has its rewritten key present in the filtered map; in
particular a `deps` entry whose key lacks the substring never contributes any
entry to the filtered map. -/
theorem c1_filter_includes_iff_marker (local_scope : LocalScope) :
    (∀ p ∈ ParseDepsFile local_scope,
        ∃ kv, kv ∈ local_scope.deps.getD [] ∧ hasPkgMarker kv.1 = true ∧
          newKey kv.1 = p.1 ∧ kv.2 = p.2)
  ∧ (∀ kv ∈ local_scope.deps.getD [], hasPkgMarker kv.1 = true →
        ∃ v', (newKey kv.1, v') ∈ ParseDepsFile local_scope) := by
  constructor
  · intro p hp
    rw [ParseDepsFile] at hp
    rcases mem_foldl_filterStep hp with h1 | h1
    · cases h1
    · exact h1
  · intro kv hkv hm
    rw [ParseDepsFile]
    exact key_mem_foldl_filterStep hm hkv

/-- Witness for C1 at the spec's own scenario input. -/
theorem c1_filter_includes_iff_marker_witness :
    (∃ kv, kv ∈ [(("sdk/third_party/pkg/foo" : String), ("u@v" : String))] ∧
        hasPkgMarker kv.1 = true ∧
        newKey kv.1 = "dart/third_party/pkg/foo" ∧ kv.2 = "u@v")
  ∧ (∃ v', (newKey "sdk/third_party/pkg/foo", v') ∈
        ParseDepsFile ⟨none, some [("sdk/third_party/pkg/foo", "u@v")]⟩) := by
  constructor
  · exact (c1_filter_includes_iff_marker ⟨none, some [("sdk/third_party/pkg/foo", "u@v")]⟩).1
      ("dart/third_party/pkg/foo", "u@v") (by decide)
  · exact (c1_filter_includes_iff_marker ⟨none, some [("sdk/third_party/pkg/foo", "u@v")]⟩).2
      ("sdk/third_party/pkg/foo", "u@v") (by decide) (by decide)

/-- C2 counterexample: two distinct `deps` keys that both contain
`sdk/third_party/pkg` can rewrite to the same key (`sdkdartsdk/third_party/pkg`
and `dartsdksdk/third_party/pkg` both become `dartdartsdk/third_party/pkg`), and
then the later entry overwrites the earlier one: the filtered map does not
contain the first entry's value under its rewritten key, contradicting the
claim as stated. -/
theorem c2_counterexample :
    hasPkgMarker "sdkdartsdk/third_party/pkg" = true ∧
    (("sdkdartsdk/third_party/pkg" : String), ("v1" : String)) ∈
      ((⟨none, some [("sdkdartsdk/third_party/pkg", "v1"),
          ("dartsdksdk/third_party/pkg", "v2")]⟩ : LocalScope).deps.getD []) ∧
    ParseDepsFile ⟨none, some [("sdkdartsdk/third_party/pkg", "v1"),
        ("dartsdksdk/third_party/pkg", "v2")]⟩ =
      [("dartdartsdk/third_party/pkg", "v2")] ∧
    (newKey "sdkdartsdk/third_party/pkg", ("v1" : String)) ∉
      ParseDepsFile ⟨none, some [("sdkdartsdk/third_party/pkg", "v1"),
        ("dartsdksdk/third_party/pkg", "v2")]⟩ := by
  refine ⟨by decide, by decide, by decide, by decide⟩

/-- C2 (amended): provided no two marker-containing `deps` entries rewrite to
the same key, every `deps` entry whose key contains `sdk/third_party/pkg`
appears in the filtered map under its key with the first `sdk` replaced by
`dart`, with the value unchanged. -/
theorem c2_rewrite_preserves_value (local_scope : LocalScope)
    (hinj : (((local_scope.deps.getD []).filter
        (fun q => hasPkgMarker q.1)).map (fun q => newKey q.1)).Nodup) :
    ∀ kv ∈ local_scope.deps.getD [], hasPkgMarker kv.1 = true →
      (newKey kv.1, kv.2) ∈ ParseDepsFile local_scope := by
  intro kv hkv hm
  rw [ParseDepsFile]
  exact mem_foldl_filterStep_of_nodup hm hkv hinj

/-- Witness for the amended C2. -/
theorem c2_rewrite_preserves_value_witness :
    (newKey "sdk/third_party/pkg/foo", ("u@v" : String)) ∈
      ParseDepsFile ⟨none, some [("sdk/third_party/pkg/foo", "u@v")]⟩ :=
  c2_rewrite_preserves_value ⟨none, some [("sdk/third_party/pkg/foo", "u@v")]⟩
    (by decide) ("sdk/third_party/pkg/foo", "u@v") (by decide) (by decide)

/-- C3: evaluating the code at a `deps` value lacking `@`.  The run does fail
(the `IndexError` escapes, so the interpreter exits nonzero), but the output
file is NOT left intact: `WriteManifest` opened it with mode `w` (truncating
it) and had already written the warning comment, the XML declaration and the
opening tags before the crash, so a nonempty partial file remains. -/
theorem c3_malformed_reference_partial_write :
    Main ⟨none, some [("sdk/third_party/pkg/foo", "noatsign")]⟩ =
      (manifestHead, Except.error "IndexError: list index out of range") ∧
    manifestHead ≠ "" := by
  refine ⟨rfl, by decide⟩

/-- C4: the evaluator's variable lookup.  When the `vars` dictionary binds the
name, `Lookup` returns the bound value; when the name is absent — including
when the declaration file bound no `vars` at all — `Lookup` raises
`Var is not defined: <name>` instead of substituting any default. -/
theorem c4_var_lookup (vi : VarImpl) (var_name : String)
    (hnd : ((vi.local_scope.vars.getD []).map Prod.fst).Nodup) :
    (∀ v, (var_name, v) ∈ vi.local_scope.vars.getD [] →
        VarImpl.Lookup vi var_name = Except.ok v)
  ∧ ((∀ v, (var_name, v) ∉ vi.local_scope.vars.getD []) →
        VarImpl.Lookup vi var_name = Except.error ("Var is not defined: " ++ var_name)) := by
  constructor
  · intro v hv
    rw [VarImpl.Lookup, dictFind_eq_some hnd hv]
  · intro hnone
    rw [VarImpl.Lookup, dictFind_eq_none hnone]

/-- Witness for C4: a bound name resolves, an unbound name errors. -/
theorem c4_var_lookup_witness :
    VarImpl.Lookup ⟨⟨some [("x_tag", "abc123")], none⟩⟩ "x_tag" = Except.ok "abc123" ∧
    VarImpl.Lookup ⟨⟨some [("x_tag", "abc123")], none⟩⟩ "undefined_name" =
      Except.error ("Var is not defined: " ++ "undefined_name") :=
  ⟨(c4_var_lookup ⟨⟨some [("x_tag", "abc123")], none⟩⟩ "x_tag" (by decide)).1
      "abc123" (by decide),
   (c4_var_lookup ⟨⟨some [("x_tag", "abc123")], none⟩⟩ "undefined_name" (by decide)).2
      (by
        intro v hv
        rcases List.mem_cons.mp hv with h | h
        · have hfst : ("undefined_name" : String) = "x_tag" := congrArg Prod.fst h
          exact absurd hfst (by decide)
        · cases h)⟩

set_option maxRecDepth 16384 in
/-- C5 counterexample: for the value `https://e.com/foo@abc@def` (two `@`s) the
writer emits revision `abc` — the segment between the first and second `@` —
not the entire remainder `abc@def` the claim predicts. -/
theorem c5_counterexample :
    WriteManifest [(("dart/third_party/pkg/foo" : String),
        ("https://e.com/foo@abc@def" : String))] =
      ((manifestHead ++
          project_template "dart/third_party/pkg/foo" "https://e.com/foo" "abc") ++
        manifestTail, none) ∧
    (WriteManifest [(("dart/third_party/pkg/foo" : String),
        ("https://e.com/foo@abc@def" : String))]).1 ≠
      (manifestHead ++
          project_template "dart/third_party/pkg/foo" "https://e.com/foo" "abc@def") ++
        manifestTail := by
  refine ⟨by decide, by decide⟩

/-- C5 (amended): the writer splits the value on every `@`; the emitted remote
URL is the prefix before the first `@`, and the emitted revision is the segment
strictly between the first and the second `@` (which is the entire remainder
exactly when the value contains a single `@`). -/
theorem c5_split_semantics (path remote : String) (rest : List (String × String))
    (written : String) (u w : List Char) (hdata : remote.data = u ++ '@' :: w)
    (hu : '@' ∉ u) :
    remoteUrl remote = String.mk u ∧
    remoteVersion remote = String.mk (w.takeWhile (fun c => c != '@')) ∧
    writeProjectsLoop ((path, remote) :: rest) written =
      writeProjectsLoop rest
        (written ++ project_template path (remoteUrl remote) (remoteVersion remote)) := by
  obtain ⟨t, ht⟩ := pySplitChars_head '@' w
  have hsplit : pySplit '@' remote =
      String.mk u :: String.mk (w.takeWhile (fun c => c != '@')) :: t.map String.mk := by
    rw [pySplit, hdata, pySplitChars_append '@' u w hu, ht, List.map_cons, List.map_cons]
  have h1 : remoteUrl remote = String.mk u := by
    rw [remoteUrl, hsplit]
    rfl
  have h2 : remoteVersion remote = String.mk (w.takeWhile (fun c => c != '@')) := by
    rw [remoteVersion, hsplit]
    rfl
  refine ⟨h1, h2, ?_⟩
  rw [writeProjectsLoop, hsplit, h1, h2]

/-- Witness for the amended C5 on a value with two `@`s. -/
theorem c5_split_semantics_witness :
    ("u@b@c" : String).data = ['u'] ++ '@' :: ['b', '@', 'c'] ∧
    '@' ∉ ['u'] ∧
    (remoteUrl "u@b@c" = String.mk ['u'] ∧
     remoteVersion "u@b@c" = String.mk (['b', '@', 'c'].takeWhile (fun c => c != '@')) ∧
     writeProjectsLoop [(("p" : String), ("u@b@c" : String))] "" =
       writeProjectsLoop []
         ("" ++ project_template "p" (remoteUrl "u@b@c") (remoteVersion "u@b@c"))) :=
  ⟨by decide, by decide,
   c5_split_semantics "p" "u@b@c" [] "" ['u'] ['b', '@', 'c'] (by decide) (by decide)⟩

/-- C6: the writer iterates the entries in sorted order — the paths of
`sorted(deps.iteritems())` are ascending (lexicographic `≤`) — and the written
output is invariant under any reordering (iteration order) of the input map. -/
theorem c6_sorted_output :
    (∀ deps : List (String × String),
        ((sortPairs deps).map Prod.fst).Sorted (fun a b => a ≤ b))
  ∧ (∀ l1 l2 : List (String × String), l1.Perm l2 → WriteManifest l1 = WriteManifest l2) := by
  constructor
  · intro deps
    exact List.Pairwise.map Prod.fst (fun a b h => pairLe_fst_le h) (sortPairs_sorted deps)
  · intro l1 l2 h
    rw [WriteManifest, WriteManifest, sortPairs_eq_of_perm h]

/-- Witness for C6 on a two-entry map given in both orders. -/
theorem c6_sorted_output_witness :
    ((sortPairs [(("b" : String), ("y@1" : String)), ("a", "x@1")]).map Prod.fst).Sorted
      (fun a b => a ≤ b) ∧
    WriteManifest [(("b" : String), ("y@1" : String)), ("a", "x@1")] =
      WriteManifest [(("a" : String), ("x@1" : String)), ("b", "y@1")] :=
  ⟨c6_sorted_output.1 [("b", "y@1"), ("a", "x@1")],
   c6_sorted_output.2 [("b", "y@1"), ("a", "x@1")] [("a", "x@1"), ("b", "y@1")] (by decide)⟩

set_option maxRecDepth 16384 in
/-- C7 counterexample: even on a successful run the written bytes do not match
the single-line `<project .../>` shape displayed in the spec's
external-interfaces section — the source's template puts each attribute on its
own line and precedes each element with a blank line. -/
theorem c7_counterexample :
    (WriteManifest [(("p" : String), ("u@r" : String))]).2 = none ∧
    (WriteManifest [(("p" : String), ("u@r" : String))]).1 ≠
      specDisplayedShape [("p", "u", "r")] := by
  refine ⟨rfl, by decide⟩

/-- C7 (amended): for every map in which every value contains an `@`, the
writer emits exactly, in order: the generated-file warning comment, the XML
declaration, the opening `<manifest>` and `<projects>` tags, then one project
block per entry in sorted order — each block a blank line followed by a
four-line `<project>` element carrying `name`, `path`, `remote`, `revision` in
that order, double-quoted, with `name` and `path` both the rewritten path —
then the closing tags. -/
theorem c7_manifest_shape (deps : List (String × String))
    (h : ∀ kv ∈ deps, 2 ≤ (pySplit '@' kv.2).length) :
    WriteManifest deps =
      (manifestHead ++ (projectsBlocks (sortPairs deps) ++ manifestTail), none) := by
  rw [WriteManifest]
  exact writeProjectsLoop_success (sortPairs deps)
    (fun kv hkv => h kv ((sortPairs_perm deps).subset hkv)) manifestHead

/-- Witness for the amended C7. -/
theorem c7_manifest_shape_witness :
    WriteManifest [(("p" : String), ("u@r" : String))] =
      (manifestHead ++ (projectsBlocks (sortPairs [("p", "u@r")]) ++ manifestTail), none) :=
  c7_manifest_shape [("p", "u@r")] (by decide)

/-- C8: the tool is a pure function of the input declaration's content — no
timestamps or run-dependent data are embedded — so any two evaluations of the
same `deps` dictionary (any two iteration orders, i.e. permuted association
lists; collision-free as a real dict's rewritten keys are assumed unique)
produce byte-identical manifest content and the same exit status. -/
theorem c8_deterministic_output (s1 s2 : LocalScope)
    (hperm : (s1.deps.getD []).Perm (s2.deps.getD []))
    (hinj : (((s1.deps.getD []).filter (fun q => hasPkgMarker q.1)).map
        (fun q => newKey q.1)).Nodup) :
    Main s1 = Main s2 := by
  have hinj2 : (((s2.deps.getD []).filter (fun q => hasPkgMarker q.1)).map
      (fun q => newKey q.1)).Nodup :=
    ((hperm.filter _).map _).nodup hinj
  have hmem : ∀ p : String × String, p ∈ ParseDepsFile s1 ↔ p ∈ ParseDepsFile s2 := by
    intro p
    rw [ParseDepsFile, ParseDepsFile, mem_filterFold_iff hinj, mem_filterFold_iff hinj2]
    constructor
    · rintro ⟨kv, hkv, hrest⟩
      exact ⟨kv, hperm.subset hkv, hrest⟩
    · rintro ⟨kv, hkv, hrest⟩
      exact ⟨kv, hperm.symm.subset hkv, hrest⟩
  have hnd1 : (ParseDepsFile s1).Nodup :=
    List.Nodup.of_map Prod.fst
      (by rw [ParseDepsFile]; exact nodup_keys_foldl_filterStep (by simp))
  have hnd2 : (ParseDepsFile s2).Nodup :=
    List.Nodup.of_map Prod.fst
      (by rw [ParseDepsFile]; exact nodup_keys_foldl_filterStep (by simp))
  have hpermf : (ParseDepsFile s1).Perm (ParseDepsFile s2) :=
    (List.perm_ext_iff_of_nodup hnd1 hnd2).mpr hmem
  rw [Main, Main, WriteManifest, WriteManifest, sortPairs_eq_of_perm hpermf]

/-- Witness for C8: the same two-entry `deps` dictionary in both iteration
orders yields identical output. -/
theorem c8_deterministic_output_witness :
    Main ⟨none, some [(("sdk/third_party/pkg/a" : String), ("u@1" : String)),
        ("sdk/third_party/pkg/b", "u@2")]⟩ =
      Main ⟨none, some [(("sdk/third_party/pkg/b" : String), ("u@2" : String)),
        ("sdk/third_party/pkg/a", "u@1")]⟩ :=
  c8_deterministic_output
    ⟨none, some [("sdk/third_party/pkg/a", "u@1"), ("sdk/third_party/pkg/b", "u@2")]⟩
    ⟨none, some [("sdk/third_party/pkg/b", "u@2"), ("sdk/third_party/pkg/a", "u@1")]⟩
    (by decide) (by decide)

/-- C9: when no `deps` key contains the marker, the filtered map is empty, the
run returns exit code 0, and the written manifest is the well-formed document
with an empty projects body (warning comment, XML declaration and all tags, no
`<project>` elements). -/
theorem c9_no_match_empty_manifest (local_scope : LocalScope)
    (h : ∀ kv ∈ local_scope.deps.getD [], hasPkgMarker kv.1 = false) :
    ParseDepsFile local_scope = [] ∧
    Main local_scope = (manifestHead ++ manifestTail, Except.ok 0) := by
  have hempty : ParseDepsFile local_scope = [] := by
    rw [ParseDepsFile]
    exact foldl_filterStep_of_no_match h
  refine ⟨hempty, ?_⟩
  rw [Main, hempty]
  rfl

/-- Witness for C9 at the spec's no-match scenario. -/
theorem c9_no_match_empty_manifest_witness :
    ParseDepsFile ⟨none, some [("other/path", "https://example.com/bar@v1")]⟩ = [] ∧
    Main ⟨none, some [("other/path", "https://example.com/bar@v1")]⟩ =
      (manifestHead ++ manifestTail, Except.ok 0) :=
  c9_no_match_empty_manifest
    ⟨none, some [("other/path", "https://example.com/bar@v1")]⟩ (by decide)

/-- C10: when the declaration file binds no `deps` at all,
`local_scope.get('deps', {})` yields the empty mapping, the filtered map is
empty, and the tool still writes the empty-but-well-formed manifest and
returns exit code 0. -/
theorem c10_missing_deps_binding (local_scope : LocalScope)
    (h : local_scope.deps = none) :
    ParseDepsFile local_scope = [] ∧
    Main local_scope = (manifestHead ++ manifestTail, Except.ok 0) := by
  have hempty : ParseDepsFile local_scope = [] := by
    rw [ParseDepsFile, h]
    rfl
  refine ⟨hempty, ?_⟩
  rw [Main, hempty]
  rfl

/-- Witness for C10. -/
theorem c10_missing_deps_binding_witness :
    ParseDepsFile ⟨some [("x_tag", "abc123")], none⟩ = [] ∧
    Main ⟨some [("x_tag", "abc123")], none⟩ =
      (manifestHead ++ manifestTail, Except.ok 0) :=
  c10_missing_deps_binding ⟨some [("x_tag", "abc123")], none⟩ rfl

end CreatePkgManifest
